import Mathlib

/-!
Verification development for the `noctua` command-line tool.

We shallowly embed the pure computational core of the Python sources:
  * `src/services/rockcraft.py`  (version-tag derivation, OCI tag fetch,
    OCI Factory manifest generation),
  * `src/services/charmcraft.py` (channel parsing, promotion engine),
  * `src/commands/charm.py`      (promote command and promotion train),
  * `src/services/github.py`     (workflow status normalization).

External effects (subprocess calls, HTTP requests, console printing) are
modelled by explicit parameters and by returning the list of performed
actions.  Python `dict`s are modelled by insertion-ordered association
lists, and `packaging.version.Version` ordering by comparison of the
release tuple with trailing zeros stripped (which is exactly how
`packaging` canonicalizes release keys).  Timestamps are modelled as
seconds counted from an epoch.
-/

/-! ### String utilities

Python string primitives used by the sources, re-implemented structurally
over `List Char` so that every definition is kernel-reducible. -/

/-- Split a character list at every occurrence of the separator, like
Python's `str.split(sep)` for a one-character separator. -/
def splitCh (sep : Char) : List Char → List (List Char)
  | [] => [[]]
  | c :: cs =>
    let r := splitCh sep cs
    if c = sep then [] :: r
    else
      match r with
      | h :: t => (c :: h) :: t
      | [] => [[c]]

/-- Python's `s.split(sep)` for a one-character separator, on `String`. -/
def pySplit (sep : Char) (s : String) : List String :=
  (splitCh sep s.data).map String.mk

/-- Whether a character is an ASCII decimal digit (models `\d`). -/
def isDig (c : Char) : Bool := (48 ≤ c.toNat) && (c.toNat ≤ 57)

/-- Numeric value of a list of decimal digits, most significant first. -/
def digitsVal (l : List Char) : Nat :=
  l.foldl (fun a c => 10 * a + (c.toNat - 48)) 0

/-- Parse a non-empty all-digit string to a `Nat` (decimal). -/
def decNat? (s : String) : Option Nat :=
  if s.data ≠ [] ∧ s.data.all isDig then some (digitsVal s.data) else none

/-- The character for a single decimal digit. -/
def digChar (n : Nat) : Char := Char.ofNat (48 + n)

/-- Decimal digits of `n`, most significant first, with explicit fuel
(`fuel = n + 1` always suffices). -/
def natDigits : Nat → Nat → List Char
  | 0, _ => []
  | fuel + 1, n =>
    if n < 10 then [digChar n]
    else natDigits fuel (n / 10) ++ [digChar (n % 10)]

/-- Decimal representation of a natural number (models Python's
`f"{n}"` formatting of a non-negative integer). -/
def natToStr (n : Nat) : String := String.mk (natDigits (n + 1) n)

/-- Whether `pat` occurs as a leading segment of `l`. -/
def leadSeg : List Char → List Char → Bool
  | [], _ => true
  | _ :: _, [] => false
  | p :: ps, c :: cs => (p = c) && leadSeg ps cs

/-- Whether `pat` occurs as a contiguous segment anywhere in `l`
(models Python's `pat in s`). -/
def containsSeg (pat : List Char) : List Char → Bool
  | [] => leadSeg pat []
  | c :: cs => leadSeg pat (c :: cs) || containsSeg pat cs

/-! ### Version keys (`packaging.version.Version` ordering)

`packaging` compares purely-numeric release versions by their tuple of
components with trailing zeros stripped (`Version("1.0") == Version("1")`).
We model the comparison key as that stripped list of naturals. -/

/-- Strip trailing zeros from a list of naturals. -/
def stripZeros (l : List Nat) : List Nat :=
  ((l.reverse).dropWhile (fun n => n = 0)).reverse

/-- Parse every component of a dotted string as a number. -/
def numComps : List String → Option (List Nat)
  | [] => some []
  | s :: rest =>
    match decNat? s, numComps rest with
    | some n, some l => some (n :: l)
    | _, _ => none

/-- Comparison key of a version string under `packaging.version.Version`
ordering: the numeric components with trailing zeros stripped.  Callers
only apply this to strings `packaging` can parse; other strings get the
key `[]`. -/
def pyVerKey (s : String) : List Nat :=
  match numComps (pySplit ('.') s) with
  | some l => stripZeros l
  | none => []

/-- Strict lexicographic order on lists of naturals, shorter lists first.
On stripped release keys this is exactly `packaging`'s `<`. -/
def lexLt : List Nat → List Nat → Bool
  | [], [] => false
  | [], _ :: _ => true
  | _ :: _, [] => false
  | x :: xs, y :: ys => if x < y then true else if y < x then false else lexLt xs ys

/-- `a` is semantically no greater than `b` (`packaging`'s `<=`). -/
def verLe (a b : List Nat) : Prop := ¬ lexLt b a = true

instance (a b : List Nat) : Decidable (verLe a b) := by
  unfold verLe; infer_instance

/-! ### Stable sorting (Python's `list.sort(key=...)`)

Python's sort is stable.  We model it by a stable insertion sort: each
element is inserted after every already-placed element whose key is not
strictly greater. -/

/-- Insert `x` into `l`, before the first element whose key is strictly
greater than the key of `x`. -/
def keyInsert (key : α → List Nat) (x : α) : List α → List α
  | [] => [x]
  | y :: ys => if lexLt (key x) (key y) then x :: y :: ys else y :: keyInsert key x ys

/-- Stable sort by a comparison key (models `l.sort(key=...)`). -/
def pySort (key : α → List Nat) (l : List α) : List α :=
  l.foldl (fun acc x => keyInsert key x acc) []

/-! ### Association lists (insertion-ordered Python `dict`s) -/

/-- First value bound to `k`, like `d[k]` / `k in d`. -/
def alFind (l : List (String × α)) (k : String) : Option α :=
  match l with
  | [] => none
  | (k', v) :: rest => if k' = k then some v else alFind rest k

/-- `if k not in d: d[k] = v` — append a binding only when absent. -/
def alInsertNew (l : List (String × α)) (k : String) (v : α) : List (String × α) :=
  match alFind l k with
  | some _ => l
  | none => l ++ [(k, v)]

/-- `d[k] = v` when `k` is known present: update in place, keeping the
original position (as a Python `dict` does). -/
def alSet : List (String × α) → String → α → List (String × α)
  | [], _, _ => []
  | (k', v') :: rest, k, v =>
    if k' = k then (k, v) :: rest else (k', v') :: alSet rest k v

/-- `d[k] = v` in general: update in place when present, append when
absent (Python `dict` assignment). -/
def alAssign (l : List (String × α)) (k : String) (v : α) : List (String × α) :=
  match alFind l k with
  | some _ => alSet l k v
  | none => l ++ [(k, v)]

/-! ### `src/services/rockcraft.py` -/

namespace Rockcraft

/-- Errors raised by `services.rockcraft` (`InputError`, `GitHubError`). -/
inductive Err where
  | inputError (msg : String)
  | gitHubError (msg : String)
deriving DecidableEq, Repr

/-- A match of `^\d+\.\d+(\.\d+)?$` (the `version_regex` of
`local_tags`): major and minor components, with an optional patch
component.  `\d` is modelled as an ASCII digit. -/
structure VerParts where
  major : Nat
  minor : Nat
  patch : Option Nat
deriving DecidableEq, Repr

/-- Match a folder name against `^\d+\.\d+(\.\d+)?$` and extract
`Version(s).major/minor/micro` (for these strings, `packaging` parses
each dot-component as a decimal number, with `micro = 0` when the patch
component is absent). -/
def parseVersionFolder (s : String) : Option VerParts :=
  match pySplit ('.') s with
  | [a, b] =>
    match decNat? a, decNat? b with
    | some x, some y => some ⟨x, y, none⟩
    | _, _ => none
  | [a, b, c] =>
    match decNat? a, decNat? b, decNat? c with
    | some x, some y, some z => some ⟨x, y, some z⟩
    | _, _, _ => none
  | _ => none

/-- `f"{version.major}"` for a matched folder name (`""` otherwise). -/
def majorTagOf (s : String) : String :=
  match parseVersionFolder s with
  | some p => natToStr p.major
  | none => ""

/-- `if version > Version(tags[k]): tags[k] = version_str` — replace the
version owning tag `k` when the new version is strictly higher.  The
key is always present when this runs (it was just inserted), so the
`none` branch is unreachable. -/
def bumpTag (tags : List (String × String)) (k vstr : String) : List (String × String) :=
  match alFind tags k with
  | some w => if lexLt (pyVerKey w) (pyVerKey vstr) then alSet tags k vstr else tags
  | none => tags

/-- The insertion phase of the loop body of `local_tags`: add the
major tag, the minor tag and (when the folder name has a patch
component) the patch tag, each only if not already present. -/
def insertTags (tags : List (String × String)) (p : VerParts) (vstr : String) :
    List (String × String) :=
  match p.patch with
  | some z =>
    alInsertNew
      (alInsertNew (alInsertNew tags (natToStr p.major) vstr)
        (natToStr p.major ++ ("." : String) ++ natToStr p.minor) vstr)
      (natToStr p.major ++ ("." : String) ++ natToStr p.minor ++ ("." : String) ++ natToStr z)
      vstr
  | none =>
    alInsertNew (alInsertNew tags (natToStr p.major) vstr)
      (natToStr p.major ++ ("." : String) ++ natToStr p.minor) vstr

/-- One iteration of the `for version_str in versions` loop of
`local_tags`, updating the `tags` dict (tag string ↦ version string):
insert the major/minor(/patch) tags when absent, then let the strictly
higher version take over the major and minor tags. -/
def tagStep (tags : List (String × String)) (vstr : String) : List (String × String) :=
  match parseVersionFolder vstr with
  | none => tags
  | some p =>
    bumpTag (bumpTag (insertTags tags p vstr) (natToStr p.major) vstr)
      (natToStr p.major ++ ("." : String) ++ natToStr p.minor) vstr

/-- The tags owned by version `v`:
`[tag for tag, ver in tags.items() if ver == v]`. -/
def tagsFor (tags : List (String × String)) (v : String) : List String :=
  (tags.filter (fun tv => tv.2 = v)).map (fun tv => tv.1)

/-- `local_tags` from `src/services/rockcraft.py`: compute the tags that
would be assigned to each rock version.  Folders not matching the
version regex are ignored; an empty filtered list is an `InputError`.
Returns the insertion-ordered dict `{version: list(tags)}`. -/
def local_tags (version_folders : List String) : Except Err (List (String × List String)) :=
  let versions := version_folders.filter (fun s => (parseVersionFolder s).isSome)
  if versions = [] then
    .error (.inputError ("There are no versioned folders in the current working directory."))
  else
    let sorted := pySort pyVerKey versions
    let tags := sorted.foldl tagStep []
    .ok (sorted.foldl (fun acc v => alAssign acc v (tagsFor tags v)) [])

end Rockcraft

/-! ### `src/services/charmcraft.py` -/

namespace Charmcraft

/-- Errors raised along the promotion path: `InputError` (bad user or
file input, including the `InputError` of `src/commands/charm.py`) and
Python's `KeyError` from a missing dict key. -/
inductive Err where
  | inputError (msg : String)
  | keyError (key : String)
deriving DecidableEq, Repr

/-- `CharmResource`: a charm resource name and optional revision. -/
structure CharmResource where
  name : String
  revision : Option Int
deriving DecidableEq, Repr

/-- `ChannelStatus`: release status of one channel within a base. -/
structure ChannelStatus where
  name : String
  status : String
  base_version : String
  base_arch : String
  revision : Int
  resources : List CharmResource
deriving DecidableEq, Repr

/-- `BaseStatus`: the channels of one base, as an insertion-ordered
dict keyed by channel name. -/
structure BaseStatus where
  version : String
  arch : String
  channels : List (String × ChannelStatus)
deriving DecidableEq, Repr

/-- `TrackStatus`: the bases of a track, keyed by base name. -/
structure TrackStatus where
  name : String
  bases : List (String × BaseStatus)
deriving DecidableEq, Repr

/-- Python whitespace characters (the complement of `\S` in the channel
regex, restricted to ASCII). -/
def isPyWhite (c : Char) : Bool :=
  c = (' ') || c = ('\t') || c = ('\n') || c = ('\r') || c = ('\x0b') || c = ('\x0c')

/-- Join strings with a slash (inverse of splitting on a slash). -/
def joinSlash : List String → String
  | [] => ""
  | [s] => s
  | s :: rest => s ++ ("/" : String) ++ joinSlash rest

/-- Match a channel name against `^(\S+)\/(edge|beta|candidate|stable)$`
(the `_REGEX` of `CharmChannel`) and return the two groups.  The risk
alternatives contain no slash, so a match splits the string at its last
slash; `\S+` makes the track part non-empty and whitespace-free. -/
def channelMatch (name : String) : Option (String × String) :=
  match (pySplit ('/') name).reverse with
  | [] => none
  | [_] => none
  | r :: ts =>
    let t := joinSlash ts.reverse
    if (r = ("edge" : String) ∨ r = ("beta" : String) ∨ r = ("candidate" : String) ∨
        r = ("stable" : String)) ∧ t.data ≠ [] ∧ t.data.all (fun c => !isPyWhite c) then
      some (t, r)
    else none

/-- `CharmChannel`: a release channel wrapper around its full name. -/
structure CharmChannel where
  name : String
deriving DecidableEq, Repr

/-- `CharmChannel.track`: the track section, or `InputError` when the
name does not match the channel regex. -/
def CharmChannel.track (c : CharmChannel) : Except Err String :=
  match channelMatch c.name with
  | some p => .ok p.1
  | none =>
    .error (.inputError ("Failed to parse track from '" ++ c.name ++ "': not a valid channel"))

/-- `CharmChannel.risk`: the risk section, or `InputError` when the
name does not match the channel regex. -/
def CharmChannel.risk (c : CharmChannel) : Except Err String :=
  match channelMatch c.name with
  | some p => .ok p.2
  | none =>
    .error (.inputError ("Failed to parse risk from '" ++ c.name ++ "': not a valid channel"))

/-- The `risk_table` of `next_risk_channel`.  The regex guarantees the
argument is one of the four risks, so the lookup never fails; we give
the (unreachable) final case the literal table entry for `stable`. -/
def riskTable (r : String) : String :=
  if r = ("edge" : String) then "beta"
  else if r = ("beta" : String) then "candidate"
  else if r = ("candidate" : String) then "stable"
  else "stable"

/-- `CharmChannel.next_risk_channel`: same track, next lower risk
(`stable` maps to itself).  It reads `self.track` first, so an invalid
name raises the track-parse `InputError`. -/
def CharmChannel.next_risk_channel (c : CharmChannel) : Except Err CharmChannel :=
  match channelMatch c.name with
  | some p => .ok ⟨p.1 ++ ("/" : String) ++ riskTable p.2⟩
  | none =>
    .error (.inputError ("Failed to parse track from '" ++ c.name ++ "': not a valid channel"))

/-- One observable action of `promote`: either a release of the source
revision and resources onto the target channel (printed instead of
executed when `dryRun` is set), or the skip notice printed when the
source or target channel is not open. -/
inductive PromoteAction where
  | release (dryRun : Bool) (charm : String) (resources : List CharmResource)
      (channel : String) (revision : Int)
  | skipNotice (channel charm : String)
deriving DecidableEq, Repr

/-- The `for base, base_status in track_status.bases.items()` loop of
`promote`.  Returns the actions emitted before any failure, paired with
the `KeyError` that aborts the loop when a base lacks the source or
target channel key. -/
def promoteBases (charm source target : String) (dryRun : Bool) :
    List (String × BaseStatus) → List PromoteAction × Option Err
  | [] => ([], none)
  | (_, bs) :: rest =>
    match alFind bs.channels source with
    | none => ([], some (.keyError source))
    | some ss =>
      match alFind bs.channels target with
      | none => ([], some (.keyError target))
      | some ts =>
        let act :=
          if ss.status = ("open" : String) ∧ ts.status = ("open" : String) then
            PromoteAction.release dryRun charm ss.resources target ss.revision
          else
            PromoteAction.skipNotice target charm
        let r := promoteBases charm source target dryRun rest
        (act :: r.1, r.2)

/-- `promote` from `src/services/charmcraft.py`.  The external
`release_status(charm)` query result is passed in as `releases`.
Returns the emitted actions and the error (if any) that aborted it. -/
def promote (charm source target : String) (dryRun : Bool)
    (releases : List (String × TrackStatus)) : List PromoteAction × Option Err :=
  match CharmChannel.track ⟨source⟩ with
  | .error e => ([], some e)
  | .ok track =>
    match alFind releases track with
    | none => ([], some (.keyError track))
    | some ts => promoteBases charm source target dryRun ts.bases

end Charmcraft

/-! ### `src/commands/charm.py` -/

namespace CharmCmd

/-- Result of the `charm promote` command: the actions emitted by the
underlying promotion, whether the external status query was reached,
and the error (if any) that aborted the command. -/
structure PromoteResult where
  actions : List Charmcraft.PromoteAction
  statusQueried : Bool
  err : Option Charmcraft.Err
deriving DecidableEq, Repr

/-- The `promote` command: compute the next-risk target channel, refuse
a `stable` source, then run `charmcraft.promote` against the current
status snapshot `releases`. -/
def promote (charm source : String) (dryRun : Bool)
    (releases : List (String × Charmcraft.TrackStatus)) : PromoteResult :=
  match Charmcraft.CharmChannel.next_risk_channel ⟨source⟩ with
  | .error e => ⟨[], false, some e⟩
  | .ok target =>
    match Charmcraft.CharmChannel.risk ⟨source⟩ with
    | .error e => ⟨[], false, some e⟩
    | .ok risk =>
      if risk = ("stable" : String) then
        ⟨[], false, some (.inputError
          ("Can't promote a charm from " ++ source ++
           ": there's no lower risk than 'stable'."))⟩
      else
        let r := Charmcraft.promote charm source target.name dryRun releases
        ⟨r.1, true, r.2⟩

/-- Run the hops of the promotion train in order.  Each hop queries the
status snapshot current at the time of the hop (`snaps k` for the k-th
hop); a raised error aborts the remaining hops, as a Python exception
would. -/
def runHops (charm : String) (dryRun : Bool)
    (snaps : Nat → List (String × Charmcraft.TrackStatus)) :
    Nat → List String → List (String × PromoteResult)
  | _, [] => []
  | k, s :: rest =>
    let r := promote charm s dryRun (snaps k)
    match r.err with
    | some _ => [(s, r)]
    | none => (s, r) :: runHops charm dryRun snaps (k + 1) rest

/-- The `promote_train` command: refuse a track containing a slash,
then promote `track/candidate`, `track/beta` and `track/edge`, in that
order, each against the snapshot current at the time of the hop. -/
def promote_train (charm track : String) (dryRun : Bool)
    (snaps : Nat → List (String × Charmcraft.TrackStatus)) :
    Except Charmcraft.Err (List (String × PromoteResult)) :=
  if track.data.contains ('/') then
    .error (.inputError (track ++ " is a channel. Please specify a track (e.g., 'latest')."))
  else
    .ok (runHops charm dryRun snaps 0
      [track ++ ("/candidate" : String), track ++ ("/beta" : String),
       track ++ ("/edge" : String)])

end CharmCmd

/-! ### `src/services/rockcraft.py`, continued: OCI Factory tags and manifest -/

namespace Rockcraft

/-- `oci_factory_tags`: the tags currently built in OCI Factory.  The
HTTP response is passed in as its status code and the keys of the
parsed `_releases.json` document.  A 404 means no tags yet; any other
non-200 status is a `GitHubError`; otherwise the keys are stripped of
their `-base` suffix (`t.split("-")[0]`) and sorted by
`packaging.version.Version`.

The `pyVerKey` sort models `tags.sort(key=Version)` exactly on stripped
keys that are purely numeric dotted versions — the `_releases.json` tag
format (e.g. `2.8.4-22.04`).  On other keys `packaging` would raise
`InvalidVersion` (unparseable strings) or apply full PEP 440 ordering
(pre/post/dev releases such as `1.0rc1`), neither of which this
embedding models; the sorting theorem about this function therefore
carries the numeric-keys hypothesis. -/
def oci_factory_tags (rock_name : String) (status_code : Nat)
    (body_tag_keys : List String) : Except Err (List String) :=
  if containsSeg (("-rock" : String).data) rock_name.data then
    .error (.inputError (rock_name ++ " should be the rock name, not the repository."))
  else if status_code = 404 then .ok []
  else if status_code ≠ 200 then
    .error (.gitHubError ("Error getting info from OCI Factory for " ++ rock_name ++
      ": request returned " ++ natToStr status_code))
  else
    .ok (pySort pyVerKey (body_tag_keys.map (fun t => (pySplit ('-') t).headD (""))))

/-- Seconds per day. -/
def secPerDay : Nat := 86400

/-- `timedelta(days=365 / 4)` is exactly 91.25 days, in seconds. -/
def quarterSec : Nat := 7884000

/-- `strftime('%Y-%m-%d')` followed by `T00:00:00Z`: the timestamp
floored to the midnight that starts its day. -/
def dayFloor (t : Nat) : Nat := t / secPerDay * secPerDay

/-- One `release` entry of an upload directive: the end-of-life
timestamp (always a midnight) and the risk list. -/
structure ReleaseEntry where
  end_of_life : Nat
  risks : List String
deriving DecidableEq, Repr

/-- One upload directive of the manifest. -/
structure UploadItem where
  source : String
  commit : String
  directory : String
  release : List (String × ReleaseEntry)
deriving DecidableEq, Repr

/-- The manifest dict built by `oci_factory_manifest` (the function
then YAML-dumps it; we model the structured value). -/
structure Manifest where
  version : Nat
  upload : List UploadItem
deriving DecidableEq, Repr

/-- `is_tag_with_patch`: `len(tag.split("-")[0].split(".")) == 3`. -/
def is_tag_with_patch (tag : String) : Bool :=
  (pySplit ('.') ((pySplit ('-') tag).headD (""))).length == 3

/-- `oci_factory_manifest`: generate the OCI Factory `image.yaml`
content.  Both `datetime.now()` calls are modelled by the single build
timestamp `now` (seconds); patch tags get an end-of-life of yesterday's
midnight, all other tags one 91.25 days ahead, floored to midnight. -/
def oci_factory_manifest (repository commit : String)
    (versions_with_tags : List (String × List String)) (now : Nat) : Manifest :=
  let end_of_life := dayFloor (now + quarterSec)
  let end_of_life_patch := dayFloor (now - secPerDay)
  { version := 1
    upload := versions_with_tags.map (fun vt =>
      { source := repository
        commit := commit
        directory := vt.1
        release := vt.2.foldl (fun acc tag =>
          alAssign acc tag
            { end_of_life := if is_tag_with_patch tag then end_of_life_patch else end_of_life
              risks := [("stable" : String)] }) [] }) }

end Rockcraft

/-! ### `src/services/github.py` -/

namespace Github

/-- One run record from `gh run list --json conclusion,status,url`
(`conclusion` is `null` for a run that has not concluded). -/
structure RunRecord where
  conclusion : Option String
  status : String
  url : String
deriving DecidableEq, Repr

/-- The declared closed set of statuses in the `Literal[...]`
annotation of `WorkflowStatus.status`. -/
def workflowStatusLiterals : List String :=
  [("action_required" : String), ("cancelled" : String), ("failure" : String),
   ("neutral" : String), ("success" : String), ("skipped" : String), ("stale" : String),
   ("timed_out" : String), ("missing" : String), ("no runs" : String), ("queued" : String)]

/-- `WorkflowStatus`: the annotation is not enforced at runtime, so the
status field can hold any conclusion value, including `None`. -/
structure WorkflowStatus where
  name : String
  status : Option String
  url : Option String
deriving DecidableEq, Repr

/-- Python truthiness of the `conclusion` field (`None` and the empty
string are falsy). -/
def falsyConclusion : Option String → Bool
  | none => true
  | some s => s == ""

/-- Outcome of the `gh run list` query: a non-zero exit (the workflow
was removed from the repository) or a parsed list of runs (at most one,
because of `limit=1`). -/
inductive RunQuery where
  | fail
  | ok (runs : List RunRecord)
deriving DecidableEq, Repr

/-- `GithubRepo.workflow_status`: normalize the latest run of a
workflow into a `WorkflowStatus`. -/
def workflow_status (workflow : String) (q : RunQuery) : WorkflowStatus :=
  match q with
  | .fail => ⟨workflow, some ("missing" : String), none⟩
  | .ok [] => ⟨workflow, some ("no runs" : String), none⟩
  | .ok (r :: _) =>
    if falsyConclusion r.conclusion ∧ r.status = ("queued" : String) then
      ⟨workflow, some ("queued" : String), none⟩
    else ⟨workflow, r.conclusion, some r.url⟩

end Github

/-! ### Lemmas about association lists -/

theorem alFind_append_none {α : Type} (l l' : List (String × α)) (k : String)
    (h : alFind l k = none) : alFind (l ++ l') k = alFind l' k := by
  induction l with
  | nil => rfl
  | cons p rest ih =>
    obtain ⟨k', v⟩ := p
    by_cases hk : k' = k
    · simp [alFind, hk] at h
    · simp only [List.cons_append, alFind, hk, if_false] at h ⊢
      exact ih h

theorem alFind_append_found {α : Type} (l l' : List (String × α)) (k : String) (v : α)
    (h : alFind l k = some v) : alFind (l ++ l') k = some v := by
  induction l with
  | nil => simp [alFind] at h
  | cons p rest ih =>
    obtain ⟨k', w⟩ := p
    by_cases hk : k' = k
    · simp only [alFind, hk, if_true] at h
      simp [alFind, hk, h]
    · simp only [List.cons_append, alFind, hk, if_false] at h ⊢
      exact ih h

theorem alFind_insertNew_found {α : Type} (l : List (String × α)) (k k' : String) (v w : α)
    (h : alFind l k' = some w) : alFind (alInsertNew l k v) k' = some w := by
  unfold alInsertNew
  cases hf : alFind l k with
  | some u => exact h
  | none => exact alFind_append_found l _ k' w h

theorem alFind_insertNew_self {α : Type} (l : List (String × α)) (k : String) (v : α) :
    ∃ w, alFind (alInsertNew l k v) k = some w := by
  unfold alInsertNew
  cases hf : alFind l k with
  | some u => exact ⟨u, hf⟩
  | none =>
    refine ⟨v, ?_⟩
    rw [alFind_append_none l _ k hf]
    simp [alFind]

theorem alFind_alSet_self {α : Type} (l : List (String × α)) (k : String) (v w : α)
    (h : alFind l k = some w) : alFind (alSet l k v) k = some v := by
  induction l with
  | nil => simp [alFind] at h
  | cons p rest ih =>
    obtain ⟨k', u⟩ := p
    by_cases hk : k' = k
    · simp [alSet, alFind, hk]
    · simp only [alFind, hk, if_false] at h
      simp only [alSet, hk, if_false, alFind]
      exact ih h

theorem alFind_alSet_ne {α : Type} (l : List (String × α)) (k k' : String) (v : α)
    (hne : k' ≠ k) : alFind (alSet l k v) k' = alFind l k' := by
  induction l with
  | nil => rfl
  | cons p rest ih =>
    obtain ⟨k'', u⟩ := p
    by_cases hk : k'' = k
    · subst hk
      simp [alSet, alFind, Ne.symm hne]
    · simp only [alSet, hk, if_false, alFind]
      by_cases hk2 : k'' = k'
      · simp [hk2]
      · simp [hk2, ih]

theorem mem_alInsertNew {α : Type} (l : List (String × α)) (k : String) (v : α)
    (x : String × α) (h : x ∈ alInsertNew l k v) : x ∈ l ∨ x = (k, v) := by
  unfold alInsertNew at h
  cases hf : alFind l k with
  | some u => rw [hf] at h; exact Or.inl h
  | none =>
    rw [hf] at h
    rcases List.mem_append.mp h with h1 | h1
    · exact Or.inl h1
    · right; simpa using h1

theorem mem_alSet {α : Type} (l : List (String × α)) (k : String) (v : α)
    (x : String × α) (h : x ∈ alSet l k v) : x ∈ l ∨ x = (k, v) := by
  induction l with
  | nil => simp [alSet] at h
  | cons p rest ih =>
    obtain ⟨k', u⟩ := p
    by_cases hk : k' = k
    · simp only [alSet, hk, if_true] at h
      rcases List.mem_cons.mp h with h1 | h1
      · exact Or.inr h1
      · exact Or.inl (List.mem_cons_of_mem _ h1)
    · simp only [alSet, hk, if_false] at h
      rcases List.mem_cons.mp h with h1 | h1
      · exact Or.inl (h1 ▸ List.mem_cons_self _ _)
      · rcases ih h1 with h2 | h2
        · exact Or.inl (List.mem_cons_of_mem _ h2)
        · exact Or.inr h2

theorem mem_of_alFind {α : Type} (l : List (String × α)) (k : String) (v : α)
    (h : alFind l k = some v) : (k, v) ∈ l := by
  induction l with
  | nil => simp [alFind] at h
  | cons p rest ih =>
    obtain ⟨k', u⟩ := p
    by_cases hk : k' = k
    · simp only [alFind, hk, if_true, Option.some.injEq] at h
      subst hk h
      exact List.mem_cons_self _ _
    · simp only [alFind, hk, if_false] at h
      exact List.mem_cons_of_mem _ (ih h)

theorem alFind_alAssign_self {α : Type} (l : List (String × α)) (k : String) (v : α) :
    alFind (alAssign l k v) k = some v := by
  unfold alAssign
  cases hf : alFind l k with
  | some u => exact alFind_alSet_self l k v u hf
  | none =>
    rw [alFind_append_none l _ k hf]
    simp [alFind]

theorem alFind_alAssign_ne {α : Type} (l : List (String × α)) (k k' : String) (v : α)
    (hne : k' ≠ k) : alFind (alAssign l k v) k' = alFind l k' := by
  unfold alAssign
  cases hf : alFind l k with
  | some u => exact alFind_alSet_ne l k k' v hne
  | none =>
    cases hfk : alFind l k' with
    | some u => exact alFind_append_found l _ k' u hfk
    | none =>
      rw [alFind_append_none l _ k' hfk]
      simp [alFind, Ne.symm hne, hfk]

/-! ### Lemmas about the version order -/

theorem lexLt_irrefl (a : List Nat) : lexLt a a = false := by
  induction a with
  | nil => rfl
  | cons x xs ih => simp [lexLt, ih]

theorem lexLt_cons_iff (x y : Nat) (xs ys : List Nat) :
    lexLt (x :: xs) (y :: ys) = true ↔ x < y ∨ (x = y ∧ lexLt xs ys = true) := by
  simp only [lexLt]
  split_ifs with h1 h2
  · simp [h1]
  · simp only [Bool.false_eq_true, false_iff]
    rintro (h | ⟨rfl, h⟩) <;> omega
  · have hxy : x = y := by omega
    simp [hxy]

theorem lexLt_trans (a b c : List Nat) (h1 : lexLt a b = true) (h2 : lexLt b c = true) :
    lexLt a c = true := by
  induction a generalizing b c with
  | nil =>
    cases b with
    | nil => simp [lexLt] at h1
    | cons y ys =>
      cases c with
      | nil => simp [lexLt] at h2
      | cons z zs => simp [lexLt]
  | cons x xs ih =>
    cases b with
    | nil => simp [lexLt] at h1
    | cons y ys =>
      cases c with
      | nil => simp [lexLt] at h2
      | cons z zs =>
        rw [lexLt_cons_iff] at h1 h2 ⊢
        rcases h1 with h1 | ⟨he1, h1⟩
        · rcases h2 with h2 | ⟨he2, h2⟩
          · exact Or.inl (Nat.lt_trans h1 h2)
          · exact Or.inl (he2 ▸ h1)
        · rcases h2 with h2 | ⟨he2, h2⟩
          · exact Or.inl (he1 ▸ h2)
          · exact Or.inr ⟨he1.trans he2, ih ys zs h1 h2⟩

theorem lexLt_asymm (a b : List Nat) (h1 : lexLt a b = true) (h2 : lexLt b a = true) :
    False := by
  have := lexLt_trans a b a h1 h2
  rw [lexLt_irrefl] at this
  exact Bool.false_ne_true this

theorem lexLt_or (a b c : List Nat) (h : lexLt a c = true) :
    lexLt a b = true ∨ lexLt b c = true := by
  induction a generalizing b c with
  | nil =>
    cases c with
    | nil => simp [lexLt] at h
    | cons y ys =>
      cases b with
      | nil => right; simp [lexLt]
      | cons z zs => left; simp [lexLt]
  | cons x xs ih =>
    cases c with
    | nil => simp [lexLt] at h
    | cons y ys =>
      cases b with
      | nil => right; simp [lexLt]
      | cons z zs =>
        rw [lexLt_cons_iff] at h
        rw [lexLt_cons_iff, lexLt_cons_iff]
        rcases h with h | ⟨he, h⟩
        · rcases Nat.lt_trichotomy x z with h1 | h1 | h1
          · exact Or.inl (Or.inl h1)
          · exact Or.inr (Or.inl (by omega))
          · exact Or.inr (Or.inl (by omega))
        · rcases Nat.lt_trichotomy x z with h1 | h1 | h1
          · exact Or.inl (Or.inl h1)
          · rcases ih zs ys h with h2 | h2
            · exact Or.inl (Or.inr ⟨h1, h2⟩)
            · exact Or.inr (Or.inr ⟨by omega, h2⟩)
          · exact Or.inr (Or.inl (by omega))

/-! ### Lemmas about the stable sort -/

theorem keyInsert_perm {α : Type} (key : α → List Nat) (x : α) (l : List α) :
    (keyInsert key x l).Perm (x :: l) := by
  induction l with
  | nil => exact List.Perm.refl _
  | cons y ys ih =>
    simp only [keyInsert]
    split_ifs with h
    · exact List.Perm.refl _
    · exact ((ih.cons y).trans (List.Perm.swap x y ys))

theorem mem_keyInsert {α : Type} (key : α → List Nat) (x a : α) (l : List α)
    (h : a ∈ keyInsert key x l) : a = x ∨ a ∈ l :=
  List.mem_cons.mp ((keyInsert_perm key x l).mem_iff.mp h)

theorem keyInsert_pairwise {α : Type} (key : α → List Nat) (x : α) (l : List α)
    (h : List.Pairwise (fun a b => verLe (key a) (key b)) l) :
    List.Pairwise (fun a b => verLe (key a) (key b)) (keyInsert key x l) := by
  induction l with
  | nil => simp [keyInsert]
  | cons y ys ih =>
    rcases List.pairwise_cons.mp h with ⟨hy, hys⟩
    simp only [keyInsert]
    split_ifs with hlt
    · refine List.pairwise_cons.mpr ⟨?_, h⟩
      intro b hb
      rcases List.mem_cons.mp hb with rfl | hb2
      · intro hcon
        exact lexLt_asymm _ _ hlt hcon
      · intro hcon
        rcases lexLt_or (key b) (key y) (key x) hcon with h1 | h1
        · exact hy b hb2 h1
        · exact lexLt_asymm _ _ hlt h1
    · refine List.pairwise_cons.mpr ⟨?_, ih hys⟩
      intro b hb
      rcases mem_keyInsert key x b ys hb with rfl | hb2
      · exact fun hcon => hlt hcon
      · exact hy b hb2

theorem pySort_perm {α : Type} (key : α → List Nat) (l : List α) :
    (pySort key l).Perm l := by
  suffices h : ∀ (l acc : List α),
      (l.foldl (fun acc x => keyInsert key x acc) acc).Perm (acc ++ l) by
    simpa using h l []
  intro l
  induction l with
  | nil => intro acc; simp
  | cons x xs ih =>
    intro acc
    simp only [List.foldl_cons]
    refine (ih (keyInsert key x acc)).trans ?_
    refine (List.Perm.append_right xs ((keyInsert_perm key x acc))).trans ?_
    have he : (x :: acc) ++ xs = x :: (acc ++ xs) := by simp
    rw [he]
    exact List.perm_middle.symm

theorem pySort_pairwise {α : Type} (key : α → List Nat) (l : List α) :
    List.Pairwise (fun a b => verLe (key a) (key b)) (pySort key l) := by
  suffices h : ∀ (l acc : List α),
      List.Pairwise (fun a b => verLe (key a) (key b)) acc →
      List.Pairwise (fun a b => verLe (key a) (key b))
        (l.foldl (fun acc x => keyInsert key x acc) acc) by
    exact h l [] (List.Pairwise.nil)
  intro l
  induction l with
  | nil => intro acc h; simpa using h
  | cons x xs ih =>
    intro acc h
    simp only [List.foldl_cons]
    exact ih _ (keyInsert_pairwise key x acc h)

theorem mem_pySort {α : Type} (key : α → List Nat) (l : List α) (a : α) :
    a ∈ pySort key l ↔ a ∈ l :=
  (pySort_perm key l).mem_iff

/-! ### Lemmas about decimal representations -/

theorem data_append (s t : String) : (s ++ t).data = s.data ++ t.data := by
  cases s; cases t; rfl

theorem natDigits_mem_digit (fuel n : Nat) (c : Char) (h : c ∈ natDigits fuel n) :
    ∃ d, d < 10 ∧ c = digChar d := by
  induction fuel generalizing n with
  | zero => simp [natDigits] at h
  | succ fuel ih =>
    simp only [natDigits] at h
    split_ifs at h with h10
    · simp at h
      exact ⟨n, h10, h⟩
    · rcases List.mem_append.mp h with h1 | h1
      · exact ih _ h1
      · simp at h1
        exact ⟨n % 10, Nat.mod_lt _ (by omega), h1⟩

theorem digChar_ne_dot (d : Nat) (h : d < 10) : digChar d ≠ ('.') := by
  interval_cases d <;> decide

theorem dot_not_mem_natToStr (n : Nat) : ('.') ∉ (natToStr n).data := by
  intro h
  rcases natDigits_mem_digit (n + 1) n _ h with ⟨d, hd, he⟩
  exact digChar_ne_dot d hd he.symm

theorem natToStr_ne_dotcat (n : Nat) (s t : String) :
    natToStr n ≠ s ++ ("." : String) ++ t := by
  intro h
  have hd : ('.') ∈ (s ++ ("." : String) ++ t).data := by
    rw [data_append, data_append]
    refine List.mem_append.mpr (Or.inl (List.mem_append.mpr (Or.inr ?_)))
    decide
  rw [← h] at hd
  exact dot_not_mem_natToStr n hd

/-! ### The tag-accumulation invariant of `local_tags` -/

namespace Rockcraft

theorem alFind_bumpTag_ne (tags : List (String × String)) (k k' vstr : String)
    (hne : k' ≠ k) : alFind (bumpTag tags k vstr) k' = alFind tags k' := by
  unfold bumpTag
  cases hf : alFind tags k with
  | none => rfl
  | some w =>
    dsimp only
    split_ifs with h
    · exact alFind_alSet_ne tags k k' vstr hne
    · rfl

theorem alFind_bumpTag_found (tags : List (String × String)) (k k' vstr w : String)
    (h : alFind tags k' = some w) :
    ∃ w', alFind (bumpTag tags k vstr) k' = some w' ∧ (w' = w ∨ w' = vstr) := by
  unfold bumpTag
  cases hf : alFind tags k with
  | none => exact ⟨w, h, Or.inl rfl⟩
  | some w0 =>
    dsimp only
    split_ifs with hlt
    · by_cases hk : k' = k
      · subst hk
        exact ⟨vstr, alFind_alSet_self _ _ _ w0 hf, Or.inr rfl⟩
      · rw [alFind_alSet_ne tags k k' vstr hk]
        exact ⟨w, h, Or.inl rfl⟩
    · exact ⟨w, h, Or.inl rfl⟩

theorem alFind_bumpTag_self (tags : List (String × String)) (k vstr w : String)
    (h : alFind tags k = some w) :
    ∃ w', alFind (bumpTag tags k vstr) k = some w' ∧
      ¬ lexLt (pyVerKey w') (pyVerKey vstr) = true ∧ (w' = w ∨ w' = vstr) := by
  unfold bumpTag
  rw [h]
  dsimp only
  split_ifs with hlt
  · exact ⟨vstr, alFind_alSet_self _ _ _ w h, by simp [lexLt_irrefl], Or.inr rfl⟩
  · exact ⟨w, h, by simp [hlt], Or.inl rfl⟩

theorem mem_bumpTag (tags : List (String × String)) (k vstr : String) (x : String × String)
    (h : x ∈ bumpTag tags k vstr) : x ∈ tags ∨ x = (k, vstr) := by
  unfold bumpTag at h
  cases hf : alFind tags k with
  | none => rw [hf] at h; exact Or.inl h
  | some w =>
    rw [hf] at h
    dsimp only at h
    split_ifs at h with hlt
    · exact mem_alSet tags k vstr x h
    · exact Or.inl h

theorem mem_insertTags (tags : List (String × String)) (p : VerParts) (vstr : String)
    (x : String × String) (h : x ∈ insertTags tags p vstr) : x ∈ tags ∨ x.2 = vstr := by
  unfold insertTags at h
  cases hp : p.patch with
  | some z =>
    rw [hp] at h
    rcases mem_alInsertNew _ _ _ _ h with h1 | h1
    · rcases mem_alInsertNew _ _ _ _ h1 with h2 | h2
      · rcases mem_alInsertNew _ _ _ _ h2 with h3 | h3
        · exact Or.inl h3
        · exact Or.inr (by rw [h3])
      · exact Or.inr (by rw [h2])
    · exact Or.inr (by rw [h1])
  | none =>
    rw [hp] at h
    rcases mem_alInsertNew _ _ _ _ h with h1 | h1
    · rcases mem_alInsertNew _ _ _ _ h1 with h2 | h2
      · exact Or.inl h2
      · exact Or.inr (by rw [h2])
    · exact Or.inr (by rw [h1])

theorem alFind_insertTags_found (tags : List (String × String)) (p : VerParts)
    (vstr k w : String) (h : alFind tags k = some w) :
    alFind (insertTags tags p vstr) k = some w := by
  unfold insertTags
  cases hp : p.patch with
  | some z =>
    exact alFind_insertNew_found _ _ _ _ _
      (alFind_insertNew_found _ _ _ _ _ (alFind_insertNew_found _ _ _ _ _ h))
  | none =>
    exact alFind_insertNew_found _ _ _ _ _ (alFind_insertNew_found _ _ _ _ _ h)

theorem alFind_insertTags_major (tags : List (String × String)) (p : VerParts)
    (vstr : String) :
    ∃ w, alFind (insertTags tags p vstr) (natToStr p.major) = some w := by
  obtain ⟨w, hw⟩ := alFind_insertNew_self tags (natToStr p.major) vstr
  unfold insertTags
  cases hp : p.patch with
  | some z =>
    exact ⟨w, alFind_insertNew_found _ _ _ _ _ (alFind_insertNew_found _ _ _ _ _ hw)⟩
  | none =>
    exact ⟨w, alFind_insertNew_found _ _ _ _ _ hw⟩

/-- Invariant of the tag-accumulation loop of `local_tags` over the
already-processed versions `P`: every tag is owned by a processed
version, and for every processed version the version owning its major
tag is at least as high. -/
def TagsInv (tags : List (String × String)) (P : List String) : Prop :=
  (∀ kv ∈ tags, kv.2 ∈ P) ∧
  (∀ u ∈ P, ∀ p : VerParts, parseVersionFolder u = some p →
    ∃ w, alFind tags (natToStr p.major) = some w ∧
      ¬ lexLt (pyVerKey w) (pyVerKey u) = true)

theorem tagStep_inv (tags : List (String × String)) (P : List String) (v : String)
    (hinv : TagsInv tags P)
    (hub : ∀ u ∈ P, ¬ lexLt (pyVerKey v) (pyVerKey u) = true) :
    TagsInv (tagStep tags v) (P ++ [v]) := by
  obtain ⟨hval, hmaj⟩ := hinv
  unfold tagStep
  cases hp : parseVersionFolder v with
  | none =>
    refine ⟨?_, ?_⟩
    · intro kv hkv
      exact List.mem_append.mpr (Or.inl (hval kv hkv))
    · intro u hu p' hpu
      rcases List.mem_append.mp hu with hu | hu
      · exact hmaj u hu p' hpu
      · simp only [List.mem_singleton] at hu
        subst hu
        rw [hp] at hpu
        exact absurd hpu (by simp)
  | some p =>
    refine ⟨?_, ?_⟩
    · intro kv hkv
      rcases mem_bumpTag _ _ _ _ hkv with h1 | h1
      · rcases mem_bumpTag _ _ _ _ h1 with h2 | h2
        · rcases mem_insertTags _ _ _ _ h2 with h3 | h3
          · exact List.mem_append.mpr (Or.inl (hval kv h3))
          · rw [h3]; simp
        · rw [h2]; simp
      · rw [h1]; simp
    · intro u hu p' hpu
      rcases List.mem_append.mp hu with hu | hu
      · obtain ⟨w, hw, hge⟩ := hmaj u hu p' hpu
        have hw3 := alFind_insertTags_found tags p v (natToStr p'.major) w hw
        obtain ⟨w4, hw4, ho4⟩ :=
          alFind_bumpTag_found (insertTags tags p v) (natToStr p.major)
            (natToStr p'.major) v w hw3
        have hne : natToStr p'.major ≠
            natToStr p.major ++ ("." : String) ++ natToStr p.minor :=
          natToStr_ne_dotcat p'.major _ _
        refine ⟨w4, ?_, ?_⟩
        · rw [alFind_bumpTag_ne _ _ _ _ hne]
          exact hw4
        · rcases ho4 with h | h
          · rw [h]; exact hge
          · rw [h]; exact hub u hu
      · simp only [List.mem_singleton] at hu
        rw [hu] at hpu
        rw [hp] at hpu
        simp only [Option.some.injEq] at hpu
        subst hpu
        rw [hu]
        obtain ⟨w3, hw3⟩ := alFind_insertTags_major tags p v
        obtain ⟨w4, hw4, hge4, _⟩ :=
          alFind_bumpTag_self (insertTags tags p v) (natToStr p.major) v w3 hw3
        have hne : natToStr p.major ≠
            natToStr p.major ++ ("." : String) ++ natToStr p.minor :=
          natToStr_ne_dotcat p.major _ _
        refine ⟨w4, ?_, hge4⟩
        rw [alFind_bumpTag_ne _ _ _ _ hne]
        exact hw4

theorem foldl_tagStep_inv (L : List String) (tags : List (String × String))
    (P : List String) (hinv : TagsInv tags P)
    (hub : ∀ u ∈ P, ∀ x ∈ L, ¬ lexLt (pyVerKey x) (pyVerKey u) = true)
    (hpw : List.Pairwise (fun a b => verLe (pyVerKey a) (pyVerKey b)) L) :
    TagsInv (L.foldl tagStep tags) (P ++ L) := by
  induction L generalizing tags P with
  | nil => simpa using hinv
  | cons x xs ih =>
    rcases List.pairwise_cons.mp hpw with ⟨hx, hxs⟩
    simp only [List.foldl_cons]
    have h1 : TagsInv (tagStep tags x) (P ++ [x]) :=
      tagStep_inv tags P x hinv (fun u hu => hub u hu x (List.mem_cons_self _ _))
    have h2 := ih (tagStep tags x) (P ++ [x]) h1 ?_ hxs
    · rw [List.append_assoc] at h2
      simpa using h2
    · intro u hu z hz
      rcases List.mem_append.mp hu with hu | hu
      · exact hub u hu z (List.mem_cons_of_mem _ hz)
      · simp only [List.mem_singleton] at hu
        subst hu
        exact hx z hz

end Rockcraft

theorem alFind_assign_foldl {α : Type} (f : String → α) (L : List String)
    (acc : List (String × α)) (s : String) :
    alFind (L.foldl (fun a v => alAssign a v (f v)) acc) s =
      if s ∈ L then some (f s) else alFind acc s := by
  induction L generalizing acc with
  | nil => simp
  | cons x xs ih =>
    simp only [List.foldl_cons]
    rw [ih]
    by_cases hs : s ∈ xs
    · simp [hs, List.mem_cons]
    · by_cases hx : s = x
      · subst hx
        simp [hs, alFind_alAssign_self]
      · simp [hs, hx, List.mem_cons, alFind_alAssign_ne _ _ _ _ hx]

/-! ### Claim C1 -/

/-- **C1**: the version-tag deriver, applied to `["1.0.0","1.0.1","1.1.0"]`,
returns exactly `{"1.0.0": ["1.0.0"], "1.0.1": ["1.0","1.0.1"],
"1.1.0": ["1","1.1","1.1.0"]}`, and applied to `["1.0","1.1"]` returns
exactly `{"1.0": ["1.0"], "1.1": ["1","1.1"]}`, as equalities of
insertion-ordered mappings including the per-version tag order. -/
theorem C1_local_tags_examples :
    Rockcraft.local_tags [("1.0.0" : String), ("1.0.1" : String), ("1.1.0" : String)] =
      .ok [(("1.0.0" : String), [("1.0.0" : String)]),
           (("1.0.1" : String), [("1.0" : String), ("1.0.1" : String)]),
           (("1.1.0" : String), [("1" : String), ("1.1" : String), ("1.1.0" : String)])] ∧
    Rockcraft.local_tags [("1.0" : String), ("1.1" : String)] =
      .ok [(("1.0" : String), [("1.0" : String)]),
           (("1.1" : String), [("1" : String), ("1.1" : String)])] :=
  ⟨rfl, rfl⟩

/-! ### Claim C2 -/

/-- **C2** fails as stated: on the valid input `["1.0","1.0.1"]` the
version `"1.0"` appears as a key of the output although it owns no tag
at all — in particular it does not own its own full-precision tag
`"1.0"` (which is owned by `"1.0.1"`), and a version owning no tag is
still preserved as a key. -/
theorem C2_counterexample_version_owning_no_tags :
    ∃ out, Rockcraft.local_tags [("1.0" : String), ("1.0.1" : String)] = .ok out ∧
      alFind out ("1.0" : String) = some [] ∧
      ∀ tl, alFind out ("1.0" : String) = some tl → ("1.0" : String) ∉ tl := by
  refine ⟨_, rfl, rfl, ?_⟩
  intro tl htl
  have : tl = [] := by
    have h2 : (some [] : Option (List String)) = some tl := by
      rw [← htl]; rfl
    simpa using h2.symm
  subst this
  simp

/-- **C2** (amended): for every input list containing at least one
string matching `^\d+\.\d+(\.\d+)?$`, the deriver succeeds; its keys
are exactly the matching versions (a version may own no tags and is
then still preserved as a key, with an empty tag list); and the major
tag of the highest major version — i.e. the major tag of a semantically
maximal matching version — is owned by a version semantically equal to
the highest version overall. -/
theorem C2_amended_local_tags_structure (folders : List String)
    (hne : folders.filter (fun s => (Rockcraft.parseVersionFolder s).isSome) ≠ [])
    (m : String)
    (hm : m ∈ folders.filter (fun s => (Rockcraft.parseVersionFolder s).isSome))
    (hmax : ∀ u ∈ folders.filter (fun s => (Rockcraft.parseVersionFolder s).isSome),
      ¬ lexLt (pyVerKey m) (pyVerKey u) = true) :
    ∃ out, Rockcraft.local_tags folders = .ok out ∧
      (∀ s, (alFind out s).isSome ↔
        s ∈ folders.filter (fun s => (Rockcraft.parseVersionFolder s).isSome)) ∧
      ∃ w tl, alFind out w = some tl ∧ Rockcraft.majorTagOf m ∈ tl ∧
        ¬ lexLt (pyVerKey w) (pyVerKey m) = true ∧
        ¬ lexLt (pyVerKey m) (pyVerKey w) = true := by
  simp only [Rockcraft.local_tags]
  rw [if_neg hne]
  have hinv := Rockcraft.foldl_tagStep_inv
    (pySort pyVerKey (folders.filter (fun s => (Rockcraft.parseVersionFolder s).isSome)))
    [] [] ⟨by simp, by simp⟩ (by simp)
    (pySort_pairwise pyVerKey _)
  simp only [List.nil_append] at hinv
  refine ⟨_, rfl, ?_, ?_⟩
  · intro s
    rw [alFind_assign_foldl]
    by_cases hs : s ∈ pySort pyVerKey
        (folders.filter (fun s => (Rockcraft.parseVersionFolder s).isSome))
    · simp [hs, (mem_pySort _ _ _).mp hs]
    · have : ¬ s ∈ folders.filter (fun s => (Rockcraft.parseVersionFolder s).isSome) :=
        fun h => hs ((mem_pySort _ _ _).mpr h)
      simp [hs, this, alFind]
  · have hmS : m ∈ pySort pyVerKey
        (folders.filter (fun s => (Rockcraft.parseVersionFolder s).isSome)) :=
      (mem_pySort _ _ _).mpr hm
    have hsome : (Rockcraft.parseVersionFolder m).isSome = true :=
      (List.mem_filter.mp hm).2
    rcases Option.isSome_iff_exists.mp hsome with ⟨pm, hpm⟩
    obtain ⟨w, hw, hge⟩ := hinv.2 m hmS pm hpm
    have hwmem := mem_of_alFind _ _ _ hw
    have hwP := hinv.1 _ hwmem
    have hwV := (mem_pySort _ _ _).mp hwP
    have hle := hmax w hwV
    refine ⟨w, Rockcraft.tagsFor
      (List.foldl Rockcraft.tagStep []
        (pySort pyVerKey (folders.filter (fun s => (Rockcraft.parseVersionFolder s).isSome)))) w,
      ?_, ?_, hge, hle⟩
    · rw [alFind_assign_foldl]
      simp [hwP]
    · have hmt : Rockcraft.majorTagOf m = natToStr pm.major := by
        simp [Rockcraft.majorTagOf, hpm]
      rw [hmt]
      unfold Rockcraft.tagsFor
      exact List.mem_map.mpr ⟨(natToStr pm.major, w),
        List.mem_filter.mpr ⟨hwmem, by simp⟩, rfl⟩

/-- Witness for the amended C2, at the concrete input
`["1.0.0","1.0.1","1.1.0"]` with maximal version `"1.1.0"`. -/
theorem C2_amended_witness :
    ((["1.0.0", "1.0.1", "1.1.0"] : List String).filter
      (fun s => (Rockcraft.parseVersionFolder s).isSome) ≠ [] ∧
     ("1.1.0" : String) ∈ (["1.0.0", "1.0.1", "1.1.0"] : List String).filter
      (fun s => (Rockcraft.parseVersionFolder s).isSome) ∧
     (∀ u ∈ (["1.0.0", "1.0.1", "1.1.0"] : List String).filter
        (fun s => (Rockcraft.parseVersionFolder s).isSome),
        ¬ lexLt (pyVerKey ("1.1.0" : String)) (pyVerKey u) = true)) ∧
    (∃ out, Rockcraft.local_tags [("1.0.0" : String), ("1.0.1" : String), ("1.1.0" : String)] =
        .ok out ∧
      (∀ s, (alFind out s).isSome ↔
        s ∈ (["1.0.0", "1.0.1", "1.1.0"] : List String).filter
          (fun s => (Rockcraft.parseVersionFolder s).isSome)) ∧
      ∃ w tl, alFind out w = some tl ∧ Rockcraft.majorTagOf ("1.1.0" : String) ∈ tl ∧
        ¬ lexLt (pyVerKey w) (pyVerKey ("1.1.0" : String)) = true ∧
        ¬ lexLt (pyVerKey ("1.1.0" : String)) (pyVerKey w) = true) :=
  ⟨⟨by decide, by decide, by decide⟩,
    C2_amended_local_tags_structure _ (by decide) _ (by decide) (by decide)⟩

/-! ### Claim C8 -/

/-- **C8**: `"latest/edge"` parses to track `"latest"`, risk `"edge"`,
with next-risk channel `"latest/beta"`; the next-risk channel of
`"3.x/stable"` is `"3.x/stable"` itself (idempotent floor); and each of
`"onlystring"`, `"too/many/slashes/here"` and `"/notrack"` raises
`InputError` when its track or risk is accessed. -/
theorem C8_channel_parsing :
    Charmcraft.CharmChannel.track ⟨("latest/edge" : String)⟩ = .ok ("latest" : String) ∧
    Charmcraft.CharmChannel.risk ⟨("latest/edge" : String)⟩ = .ok ("edge" : String) ∧
    Charmcraft.CharmChannel.next_risk_channel ⟨("latest/edge" : String)⟩ =
      .ok ⟨("latest/beta" : String)⟩ ∧
    Charmcraft.CharmChannel.next_risk_channel ⟨("3.x/stable" : String)⟩ =
      .ok ⟨("3.x/stable" : String)⟩ ∧
    (∃ msg, Charmcraft.CharmChannel.track ⟨("onlystring" : String)⟩ =
      .error (.inputError msg)) ∧
    (∃ msg, Charmcraft.CharmChannel.risk ⟨("onlystring" : String)⟩ =
      .error (.inputError msg)) ∧
    (∃ msg, Charmcraft.CharmChannel.track ⟨("too/many/slashes/here" : String)⟩ =
      .error (.inputError msg)) ∧
    (∃ msg, Charmcraft.CharmChannel.risk ⟨("too/many/slashes/here" : String)⟩ =
      .error (.inputError msg)) ∧
    (∃ msg, Charmcraft.CharmChannel.track ⟨("/notrack" : String)⟩ =
      .error (.inputError msg)) ∧
    (∃ msg, Charmcraft.CharmChannel.risk ⟨("/notrack" : String)⟩ =
      .error (.inputError msg)) :=
  ⟨rfl, rfl, rfl, rfl, ⟨_, rfl⟩, ⟨_, rfl⟩, ⟨_, rfl⟩, ⟨_, rfl⟩, ⟨_, rfl⟩, ⟨_, rfl⟩⟩

/-! ### Claim C10 -/

/-- **C10**: when the latest run has a `null` conclusion and a status
other than `"queued"` (e.g. an in-progress run), the workflow-status
query passes the `null` conclusion through as the returned status — a
value outside the declared closed `Literal` set — with the run's URL
attached; and (among runs with a falsy conclusion) the `"queued"`
status is returned exactly when the run's status field is `"queued"`. -/
theorem C10_workflow_status_null_passthrough (workflow : String) (r : Github.RunRecord)
    (rest : List Github.RunRecord) (hconc : r.conclusion = none)
    (hst : r.status ≠ ("queued" : String)) :
    (Github.workflow_status workflow (.ok (r :: rest)) =
        ⟨workflow, none, some r.url⟩ ∧
      (none : Option String) ∉ Github.workflowStatusLiterals.map some) ∧
    (∀ r' : Github.RunRecord, ∀ rest' : List Github.RunRecord,
      Github.falsyConclusion r'.conclusion = true →
      ((Github.workflow_status workflow (.ok (r' :: rest'))).status =
          some ("queued" : String) ↔ r'.status = ("queued" : String))) := by
  constructor
  · constructor
    · simp [Github.workflow_status, hconc, hst]
    · decide
  · intro r' rest' hf
    by_cases hq : r'.status = ("queued" : String)
    · simp [Github.workflow_status, hq, hf]
    · simp only [Github.workflow_status]
      rw [if_neg (fun hand => hq hand.2)]
      dsimp only
      cases hc : r'.conclusion with
      | none => simp [hq]
      | some s =>
        have hs : s = "" := by
          simpa [Github.falsyConclusion, hc] using hf
        subst hs
        simp only [Option.some.injEq]
        constructor
        · intro h; exact absurd h.symm (by decide)
        · intro h; exact absurd h hq

/-- Witness for C10 at a concrete in-progress run. -/
theorem C10_witness :
    ((⟨none, ("in_progress" : String), ("u" : String)⟩ : Github.RunRecord).conclusion =
        none ∧
      (⟨none, ("in_progress" : String), ("u" : String)⟩ : Github.RunRecord).status ≠
        ("queued" : String)) ∧
    (((Github.workflow_status ("w" : String)
          (.ok [⟨none, ("in_progress" : String), ("u" : String)⟩]) =
        ⟨("w" : String), none, some (⟨none, ("in_progress" : String),
          ("u" : String)⟩ : Github.RunRecord).url⟩) ∧
      (none : Option String) ∉ Github.workflowStatusLiterals.map some) ∧
    (∀ r' : Github.RunRecord, ∀ rest' : List Github.RunRecord,
      Github.falsyConclusion r'.conclusion = true →
      ((Github.workflow_status ("w" : String) (.ok (r' :: rest'))).status =
          some ("queued" : String) ↔ r'.status = ("queued" : String)))) :=
  ⟨⟨rfl, by decide⟩,
    C10_workflow_status_null_passthrough ("w" : String) _ [] rfl (by decide)⟩

/-! ### Claim C7 -/

/-- **C7**: for every charm name and every source channel whose risk
parses to `"stable"`, the promote command fails with `InputError`, with
no promotion actions emitted and without reaching the external status
query (so before any external call). -/
theorem C7_promote_from_stable_refused (charm source : String) (dryRun : Bool)
    (releases : List (String × Charmcraft.TrackStatus))
    (h : Charmcraft.CharmChannel.risk ⟨source⟩ = .ok ("stable" : String)) :
    CharmCmd.promote charm source dryRun releases =
      ⟨[], false, some (.inputError ("Can't promote a charm from " ++ source ++
        ": there's no lower risk than 'stable'."))⟩ := by
  unfold CharmCmd.promote
  unfold Charmcraft.CharmChannel.risk at h
  cases hm : Charmcraft.channelMatch source with
  | none => rw [hm] at h; exact absurd h (by simp)
  | some p =>
    rw [hm] at h
    simp only [Except.ok.injEq] at h
    unfold Charmcraft.CharmChannel.next_risk_channel Charmcraft.CharmChannel.risk
    rw [hm]
    dsimp only
    rw [if_pos h]

/-- Witness for C7 at the concrete source channel `"latest/stable"`. -/
theorem C7_witness :
    Charmcraft.CharmChannel.risk ⟨("latest/stable" : String)⟩ =
      .ok ("stable" : String) ∧
    CharmCmd.promote ("c" : String) ("latest/stable" : String) false [] =
      ⟨[], false, some (.inputError ("Can't promote a charm from " ++
        ("latest/stable" : String) ++ ": there's no lower risk than 'stable'."))⟩ :=
  ⟨rfl, C7_promote_from_stable_refused ("c" : String) ("latest/stable" : String) false [] rfl⟩

/-! ### Claims C3 and C6: the promotion engine -/

namespace Charmcraft

/-- The per-base promotion rule as the specification states it: when
both the source and the target channel of the base are `"open"`, a
release of the source's revision and resource list onto the target
channel; otherwise a skip notice; undefined (`none`) when either
channel key is missing.  `promote` is compared against this rule. -/
def specPromotionRule (charm source target : String) (dryRun : Bool)
    (bs : BaseStatus) : Option PromoteAction :=
  match alFind bs.channels source, alFind bs.channels target with
  | some ss, some ts =>
    some (if ss.status = ("open" : String) ∧ ts.status = ("open" : String) then
      .release dryRun charm ss.resources target ss.revision
    else .skipNotice target charm)
  | _, _ => none

theorem promoteBases_total (charm source target : String) (dryRun : Bool)
    (L : List (String × BaseStatus))
    (hall : ∀ p ∈ L, (alFind p.2.channels source).isSome ∧
      (alFind p.2.channels target).isSome) :
    (promoteBases charm source target dryRun L).2 = none ∧
    List.Forall₂ (fun (p : String × BaseStatus) a =>
        specPromotionRule charm source target dryRun p.2 = some a)
      L (promoteBases charm source target dryRun L).1 := by
  induction L with
  | nil => exact ⟨rfl, List.Forall₂.nil⟩
  | cons b rest ih =>
    obtain ⟨bn, bs⟩ := b
    rcases Option.isSome_iff_exists.mp (hall _ (List.mem_cons_self _ _)).1 with ⟨ss, hss⟩
    rcases Option.isSome_iff_exists.mp (hall _ (List.mem_cons_self _ _)).2 with ⟨ts', hts'⟩
    have ihh := ih (fun p hp => hall p (List.mem_cons_of_mem _ hp))
    simp only [promoteBases]
    rw [hss, hts']
    dsimp only
    refine ⟨ihh.1, List.Forall₂.cons ?_ ihh.2⟩
    simp [specPromotionRule, hss, hts']

theorem promoteBases_missing (charm source target : String) (dryRun : Bool)
    (pre : List (String × BaseStatus)) (bn : String) (bs : BaseStatus)
    (rest : List (String × BaseStatus))
    (hpre : ∀ p ∈ pre, (alFind p.2.channels source).isSome ∧
      (alFind p.2.channels target).isSome)
    (hmiss : alFind bs.channels source = none ∨
      ((alFind bs.channels source).isSome ∧ alFind bs.channels target = none)) :
    ∃ acts, promoteBases charm source target dryRun (pre ++ (bn, bs) :: rest) =
        (acts, some (.keyError
          (if alFind bs.channels source = none then source else target))) ∧
      acts.length = pre.length ∧
      List.Forall₂ (fun (p : String × BaseStatus) a =>
        specPromotionRule charm source target dryRun p.2 = some a) pre acts := by
  induction pre with
  | nil =>
    rcases hmiss with hm | ⟨hsome, hm⟩
    · refine ⟨[], ?_, rfl, List.Forall₂.nil⟩
      simp only [List.nil_append, promoteBases]
      rw [hm]
      simp
    · rcases Option.isSome_iff_exists.mp hsome with ⟨ss, hss⟩
      refine ⟨[], ?_, rfl, List.Forall₂.nil⟩
      simp only [List.nil_append, promoteBases]
      rw [hss, hm]
      simp
  | cons p pre' ih =>
    obtain ⟨pn, pbs⟩ := p
    rcases Option.isSome_iff_exists.mp (hpre _ (List.mem_cons_self _ _)).1 with ⟨ss, hss⟩
    rcases Option.isSome_iff_exists.mp (hpre _ (List.mem_cons_self _ _)).2 with ⟨ts', hts'⟩
    obtain ⟨acts, hacts, hlen, hfa⟩ := ih (fun q hq => hpre q (List.mem_cons_of_mem _ hq))
    refine ⟨(if ss.status = ("open" : String) ∧ ts'.status = ("open" : String) then
        PromoteAction.release dryRun charm ss.resources target ss.revision
      else PromoteAction.skipNotice target charm) :: acts, ?_, ?_, ?_⟩
    · simp only [List.cons_append, promoteBases, List.append_eq]
      rw [hss, hts']
      dsimp only
      rw [hacts]
    · simp [hlen]
    · refine List.Forall₂.cons ?_ hfa
      simp [specPromotionRule, hss, hts']

end Charmcraft

/-- **C3**: for every base in the source channel's track (when every
base carries both channel keys), `promote` emits, per base and in
order, exactly the action given by the spec's rule: a release of the
source revision and resources onto the target channel if and only if
both channels are `"open"`, and a skip notice otherwise; no error is
raised, so a closed channel is a reported skip, not a failure. -/
theorem C3_promote_follows_spec_rule (charm source target : String) (dryRun : Bool)
    (releases : List (String × Charmcraft.TrackStatus)) (track : String)
    (ts : Charmcraft.TrackStatus)
    (htr : Charmcraft.CharmChannel.track ⟨source⟩ = .ok track)
    (hts : alFind releases track = some ts)
    (hall : ∀ p ∈ ts.bases, (alFind p.2.channels source).isSome ∧
      (alFind p.2.channels target).isSome) :
    (Charmcraft.promote charm source target dryRun releases).2 = none ∧
    List.Forall₂ (fun (p : String × Charmcraft.BaseStatus) a =>
        Charmcraft.specPromotionRule charm source target dryRun p.2 = some a)
      ts.bases (Charmcraft.promote charm source target dryRun releases).1 := by
  have hred : Charmcraft.promote charm source target dryRun releases =
      Charmcraft.promoteBases charm source target dryRun ts.bases := by
    unfold Charmcraft.promote
    rw [htr]
    dsimp only
    rw [hts]
  rw [hred]
  exact Charmcraft.promoteBases_total charm source target dryRun ts.bases hall

/-- A track status with two bases: `20.04/amd64` has the source and
target channels both open, `22.04/amd64` has the target closed. -/
def twoBaseTrack : Charmcraft.TrackStatus :=
  { name := ("latest" : String)
    bases :=
        [(("20.04/amd64" : String),
          { version := ("20.04" : String)
            arch := ("amd64" : String)
            channels :=
              [(("latest/candidate" : String),
                { name := ("latest/candidate" : String), status := ("open" : String)
                  base_version := ("20.04" : String), base_arch := ("amd64" : String)
                  revision := 1
                  resources := [{ name := ("img" : String), revision := some 1 }] }),
               (("latest/stable" : String),
                { name := ("latest/stable" : String), status := ("open" : String)
                  base_version := ("20.04" : String), base_arch := ("amd64" : String)
                  revision := 15
                  resources := [{ name := ("img" : String), revision := some 3 }] })] }),
         (("22.04/amd64" : String),
          { version := ("22.04" : String)
            arch := ("amd64" : String)
            channels :=
              [(("latest/candidate" : String),
                { name := ("latest/candidate" : String), status := ("open" : String)
                  base_version := ("22.04" : String), base_arch := ("amd64" : String)
                  revision := 17
                  resources := [{ name := ("img" : String), revision := some 4 }] }),
               (("latest/stable" : String),
                { name := ("latest/stable" : String), status := ("closed" : String)
                  base_version := ("22.04" : String), base_arch := ("amd64" : String)
                  revision := -1
                  resources := [] })] })] }

/-- A release status holding just the `latest` track above. -/
def twoBaseReleases : List (String × Charmcraft.TrackStatus) :=
  [(("latest" : String), twoBaseTrack)]

/-- Witness for C3: on the two-base status tree, promoting
`latest/candidate` to `latest/stable` emits exactly one release action
(for the all-open base) and exactly one skip notice (for the closed
base), with no error. -/
theorem C3_witness :
    (Charmcraft.CharmChannel.track ⟨("latest/candidate" : String)⟩ =
        .ok ("latest" : String) ∧
      alFind twoBaseReleases ("latest" : String) = some twoBaseTrack ∧
      (∀ p ∈ twoBaseTrack.bases,
        (alFind p.2.channels ("latest/candidate" : String)).isSome ∧
        (alFind p.2.channels ("latest/stable" : String)).isSome)) ∧
    ((Charmcraft.promote ("c" : String) ("latest/candidate" : String)
        ("latest/stable" : String) false twoBaseReleases).2 = none ∧
      List.Forall₂ (fun (p : String × Charmcraft.BaseStatus) a =>
          Charmcraft.specPromotionRule ("c" : String) ("latest/candidate" : String)
            ("latest/stable" : String) false p.2 = some a)
        twoBaseTrack.bases
        (Charmcraft.promote ("c" : String) ("latest/candidate" : String)
          ("latest/stable" : String) false twoBaseReleases).1) ∧
    Charmcraft.promote ("c" : String) ("latest/candidate" : String)
        ("latest/stable" : String) false twoBaseReleases =
      ([Charmcraft.PromoteAction.release false ("c" : String)
          [{ name := ("img" : String), revision := some 1 }]
          ("latest/stable" : String) 1,
        Charmcraft.PromoteAction.skipNotice ("latest/stable" : String) ("c" : String)],
       none) :=
  ⟨⟨rfl, rfl, by decide⟩,
    C3_promote_follows_spec_rule ("c" : String) ("latest/candidate" : String)
      ("latest/stable" : String) false twoBaseReleases ("latest" : String)
      twoBaseTrack rfl rfl (by decide),
    rfl⟩

/-- **C6**: during promotion, the first base in the track whose channel
dict lacks the source or the target channel key aborts `promote` with a
`KeyError` for the missing key: the bases before it get their normal
per-base actions, and the failing base gets no action at all — in
particular no skip notice — and no later base is processed. -/
theorem C6_promote_missing_channel_fails (charm source target : String) (dryRun : Bool)
    (releases : List (String × Charmcraft.TrackStatus)) (track : String)
    (ts : Charmcraft.TrackStatus) (pre : List (String × Charmcraft.BaseStatus))
    (bn : String) (bs : Charmcraft.BaseStatus)
    (rest : List (String × Charmcraft.BaseStatus))
    (htr : Charmcraft.CharmChannel.track ⟨source⟩ = .ok track)
    (hts : alFind releases track = some ts)
    (hbases : ts.bases = pre ++ (bn, bs) :: rest)
    (hpre : ∀ p ∈ pre, (alFind p.2.channels source).isSome ∧
      (alFind p.2.channels target).isSome)
    (hmiss : alFind bs.channels source = none ∨
      ((alFind bs.channels source).isSome ∧ alFind bs.channels target = none)) :
    ∃ acts, Charmcraft.promote charm source target dryRun releases =
        (acts, some (.keyError
          (if alFind bs.channels source = none then source else target))) ∧
      acts.length = pre.length ∧
      List.Forall₂ (fun (p : String × Charmcraft.BaseStatus) a =>
        Charmcraft.specPromotionRule charm source target dryRun p.2 = some a)
        pre acts := by
  have hred : Charmcraft.promote charm source target dryRun releases =
      Charmcraft.promoteBases charm source target dryRun ts.bases := by
    unfold Charmcraft.promote
    rw [htr]
    dsimp only
    rw [hts]
  rw [hred, hbases]
  exact Charmcraft.promoteBases_missing charm source target dryRun pre bn bs rest
    hpre hmiss

/-- A base whose channel dict has both the source and target channels
(both open). -/
def baseWithBothChannels : Charmcraft.BaseStatus :=
  { version := ("20.04" : String)
    arch := ("amd64" : String)
    channels :=
      [(("latest/candidate" : String),
        { name := ("latest/candidate" : String), status := ("open" : String)
          base_version := ("20.04" : String), base_arch := ("amd64" : String)
          revision := 1
          resources := [{ name := ("img" : String), revision := some 1 }] }),
       (("latest/stable" : String),
        { name := ("latest/stable" : String), status := ("open" : String)
          base_version := ("20.04" : String), base_arch := ("amd64" : String)
          revision := 15
          resources := [{ name := ("img" : String), revision := some 3 }] })] }

/-- A malformed base whose channel dict lacks the target channel. -/
def baseMissingTarget : Charmcraft.BaseStatus :=
  { version := ("22.04" : String)
    arch := ("amd64" : String)
    channels :=
      [(("latest/candidate" : String),
        { name := ("latest/candidate" : String), status := ("open" : String)
          base_version := ("22.04" : String), base_arch := ("amd64" : String)
          revision := 17
          resources := [] })] }

/-- A track whose second base lacks the target channel key. -/
def missingChannelTrack : Charmcraft.TrackStatus :=
  { name := ("latest" : String)
    bases := [(("20.04/amd64" : String), baseWithBothChannels),
              (("22.04/amd64" : String), baseMissingTarget)] }

/-- A release status holding just the malformed `latest` track. -/
def missingChannelReleases : List (String × Charmcraft.TrackStatus) :=
  [(("latest" : String), missingChannelTrack)]

/-- Witness for C6: on the malformed tree, the promotion handles the
first base normally and aborts with `KeyError` on the second. -/
theorem C6_witness :
    (Charmcraft.CharmChannel.track ⟨("latest/candidate" : String)⟩ =
        .ok ("latest" : String) ∧
      alFind missingChannelReleases ("latest" : String) = some missingChannelTrack ∧
      missingChannelTrack.bases =
        [(("20.04/amd64" : String), baseWithBothChannels)] ++
          (("22.04/amd64" : String), baseMissingTarget) :: [] ∧
      (∀ p ∈ [(("20.04/amd64" : String), baseWithBothChannels)],
        (alFind p.2.channels ("latest/candidate" : String)).isSome ∧
        (alFind p.2.channels ("latest/stable" : String)).isSome) ∧
      (alFind baseMissingTarget.channels ("latest/candidate" : String) = none ∨
        ((alFind baseMissingTarget.channels ("latest/candidate" : String)).isSome ∧
          alFind baseMissingTarget.channels ("latest/stable" : String) = none))) ∧
    ∃ acts, Charmcraft.promote ("c" : String) ("latest/candidate" : String)
          ("latest/stable" : String) false missingChannelReleases =
        (acts, some (.keyError
          (if alFind baseMissingTarget.channels ("latest/candidate" : String) = none
            then ("latest/candidate" : String) else ("latest/stable" : String)))) ∧
      acts.length = [(("20.04/amd64" : String), baseWithBothChannels)].length ∧
      List.Forall₂ (fun (p : String × Charmcraft.BaseStatus) a =>
        Charmcraft.specPromotionRule ("c" : String) ("latest/candidate" : String)
          ("latest/stable" : String) false p.2 = some a)
        [(("20.04/amd64" : String), baseWithBothChannels)] acts :=
  ⟨⟨rfl, rfl, rfl, by decide, by decide⟩,
    C6_promote_missing_channel_fails ("c" : String) ("latest/candidate" : String)
      ("latest/stable" : String) false missingChannelReleases ("latest" : String)
      missingChannelTrack [(("20.04/amd64" : String), baseWithBothChannels)]
      ("22.04/amd64" : String) baseMissingTarget [] rfl rfl rfl
      (by decide) (by decide)⟩

/-! ### Claim C4 -/

/-- A base with all four risk channels open. -/
def fullyOpenBase : Charmcraft.BaseStatus :=
  { version := ("22.04" : String)
    arch := ("amd64" : String)
    channels :=
      [(("latest/stable" : String),
        { name := ("latest/stable" : String), status := ("open" : String)
          base_version := ("22.04" : String), base_arch := ("amd64" : String)
          revision := 15
          resources := [{ name := ("img" : String), revision := some 3 }] }),
       (("latest/candidate" : String),
        { name := ("latest/candidate" : String), status := ("open" : String)
          base_version := ("22.04" : String), base_arch := ("amd64" : String)
          revision := 17
          resources := [{ name := ("img" : String), revision := some 4 }] }),
       (("latest/beta" : String),
        { name := ("latest/beta" : String), status := ("open" : String)
          base_version := ("22.04" : String), base_arch := ("amd64" : String)
          revision := 17
          resources := [{ name := ("img" : String), revision := some 4 }] }),
       (("latest/edge" : String),
        { name := ("latest/edge" : String), status := ("open" : String)
          base_version := ("22.04" : String), base_arch := ("amd64" : String)
          revision := 17
          resources := [{ name := ("img" : String), revision := some 4 }] })] }

/-- A release status with one track whose single base is fully open. -/
def fullyOpenReleases : List (String × Charmcraft.TrackStatus) :=
  [(("latest" : String),
    { name := ("latest" : String)
      bases := [(("22.04/amd64" : String), fullyOpenBase)] })]

/-- **C4** fails as stated: on a fully open status tree the promotion
train executes its three hops starting from `candidate` — the sources
are, in execution order, `latest/candidate`, `latest/beta`,
`latest/edge` — not `edge→beta` first as the claim asserts. -/
theorem C4_counterexample_train_order :
    ∃ hops, CharmCmd.promote_train ("c" : String) ("latest" : String) true
        (fun _ => fullyOpenReleases) = .ok hops ∧
      hops.map Prod.fst =
        [("latest/candidate" : String), ("latest/beta" : String),
         ("latest/edge" : String)] ∧
      hops.map Prod.fst ≠
        [("latest/edge" : String), ("latest/beta" : String),
         ("latest/candidate" : String)] :=
  ⟨_, rfl, rfl, by decide⟩

/-- **C4** (amended): the promotion-train operation composes exactly
three single-channel promotions, executed in the sequence
candidate→stable first, then beta→candidate, then edge→beta, each hop
independently computed from the status snapshot current at the time of
that hop (`snaps k` for the k-th hop). -/
theorem C4_amended_train_candidate_first (charm track : String) (dryRun : Bool)
    (snaps : Nat → List (String × Charmcraft.TrackStatus))
    (hslash : track.data.contains ('/') = false)
    (h0 : (CharmCmd.promote charm (track ++ ("/candidate" : String)) dryRun
      (snaps 0)).err = none)
    (h1 : (CharmCmd.promote charm (track ++ ("/beta" : String)) dryRun
      (snaps 1)).err = none)
    (h2 : (CharmCmd.promote charm (track ++ ("/edge" : String)) dryRun
      (snaps 2)).err = none) :
    CharmCmd.promote_train charm track dryRun snaps = .ok
      [(track ++ ("/candidate" : String),
        CharmCmd.promote charm (track ++ ("/candidate" : String)) dryRun (snaps 0)),
       (track ++ ("/beta" : String),
        CharmCmd.promote charm (track ++ ("/beta" : String)) dryRun (snaps 1)),
       (track ++ ("/edge" : String),
        CharmCmd.promote charm (track ++ ("/edge" : String)) dryRun (snaps 2))] := by
  unfold CharmCmd.promote_train
  rw [hslash]
  simp only [Bool.false_eq_true, if_false, CharmCmd.runHops]
  norm_num
  rw [h0, h1, h2]

/-- Witness for the amended C4, at the fully open snapshot. -/
theorem C4_amended_witness :
    (("latest" : String).data.contains ('/') = false ∧
      (CharmCmd.promote ("c" : String) (("latest" : String) ++ ("/candidate" : String))
        true ((fun _ => fullyOpenReleases) 0)).err = none ∧
      (CharmCmd.promote ("c" : String) (("latest" : String) ++ ("/beta" : String))
        true ((fun _ => fullyOpenReleases) 1)).err = none ∧
      (CharmCmd.promote ("c" : String) (("latest" : String) ++ ("/edge" : String))
        true ((fun _ => fullyOpenReleases) 2)).err = none) ∧
    CharmCmd.promote_train ("c" : String) ("latest" : String) true
        (fun _ => fullyOpenReleases) = .ok
      [(("latest" : String) ++ ("/candidate" : String),
        CharmCmd.promote ("c" : String) (("latest" : String) ++ ("/candidate" : String))
          true ((fun _ => fullyOpenReleases) 0)),
       (("latest" : String) ++ ("/beta" : String),
        CharmCmd.promote ("c" : String) (("latest" : String) ++ ("/beta" : String))
          true ((fun _ => fullyOpenReleases) 1)),
       (("latest" : String) ++ ("/edge" : String),
        CharmCmd.promote ("c" : String) (("latest" : String) ++ ("/edge" : String))
          true ((fun _ => fullyOpenReleases) 2))] :=
  ⟨⟨rfl, rfl, rfl, rfl⟩,
    C4_amended_train_candidate_first ("c" : String) ("latest" : String) true
      (fun _ => fullyOpenReleases) rfl rfl rfl rfl⟩

/-! ### Claim C5 -/

theorem mem_alAssign {α : Type} (l : List (String × α)) (k : String) (v : α)
    (x : String × α) (h : x ∈ alAssign l k v) : x ∈ l ∨ x = (k, v) := by
  unfold alAssign at h
  cases hf : alFind l k with
  | some u =>
    rw [hf] at h
    exact mem_alSet l k v x h
  | none =>
    rw [hf] at h
    rcases List.mem_append.mp h with h1 | h1
    · exact Or.inl h1
    · right; simpa using h1

theorem mem_assign_foldl {α : Type} (g : String → α) (L : List String)
    (acc : List (String × α)) (hacc : ∀ te ∈ acc, te.2 = g te.1) :
    ∀ te ∈ L.foldl (fun a tag => alAssign a tag (g tag)) acc, te.2 = g te.1 := by
  induction L generalizing acc with
  | nil => exact hacc
  | cons x xs ih =>
    simp only [List.foldl_cons]
    refine ih _ ?_
    intro te hte
    rcases mem_alAssign _ _ _ _ hte with h1 | h1
    · exact hacc te h1
    · rw [h1]

/-- **C5** fails as stated: in the manifest generated for the single
tag `"a.b.c"` — whose base-suffix-stripped form has three dot-separated
components that are *not* numeric — the end-of-life is yesterday's
midnight (`86400`, in the past of the build time `2*86400 + 100`), even
though the claim requires every tag without three numeric components to
receive an end-of-life 91–92 days in the future. -/
theorem C5_counterexample_nonnumeric_patch_tag :
    Rockcraft.oci_factory_manifest ("r" : String) ("c" : String)
        [(("v" : String), [("a.b.c" : String)])] (2 * 86400 + 100) =
      { version := 1
        upload := [{ source := ("r" : String)
                     commit := ("c" : String)
                     directory := ("v" : String)
                     release := [(("a.b.c" : String),
                       { end_of_life := 86400
                         risks := [("stable" : String)] })] }] } ∧
    numComps (pySplit ('.') ("a.b.c" : String)) = none ∧
    86400 < 2 * 86400 + 100 :=
  ⟨rfl, rfl, by decide⟩

/-- **C5** (amended): in the generated manifest, a tag whose
base-suffix-stripped form has exactly three dot-separated components
(numeric or not) gets an end-of-life of one day in the past (date-only
midnight: `dayFloor now - 86400`), every other tag gets an end-of-life
whose date is 91 or 92 days after the build date (date-only midnight),
and every upload directive carries the repository and commit passed in
(with risk list `["stable"]`). -/
theorem C5_amended_manifest_eol_policy (repository commit : String)
    (vwt : List (String × List String)) (now : Nat) (hday : 86400 ≤ now) :
    ∀ item ∈ (Rockcraft.oci_factory_manifest repository commit vwt now).upload,
      item.source = repository ∧ item.commit = commit ∧
      ∀ te ∈ item.release,
        te.2.risks = [("stable" : String)] ∧
        te.2.end_of_life % 86400 = 0 ∧
        (Rockcraft.is_tag_with_patch te.1 = true →
          te.2.end_of_life + 86400 = Rockcraft.dayFloor now) ∧
        (Rockcraft.is_tag_with_patch te.1 = false →
          (te.2.end_of_life = Rockcraft.dayFloor now + 91 * 86400 ∨
            te.2.end_of_life = Rockcraft.dayFloor now + 92 * 86400)) := by
  intro item hitem
  unfold Rockcraft.oci_factory_manifest at hitem
  dsimp only at hitem
  rcases List.mem_map.mp hitem with ⟨vt, hvt, rfl⟩
  refine ⟨rfl, rfl, ?_⟩
  intro te hte
  dsimp only at hte
  have hval := mem_assign_foldl
    (fun tag => Rockcraft.ReleaseEntry.mk
      (if Rockcraft.is_tag_with_patch tag then
        Rockcraft.dayFloor (now - Rockcraft.secPerDay)
      else Rockcraft.dayFloor (now + Rockcraft.quarterSec))
      [("stable" : String)])
    vt.2 [] (by simp) te hte
  rw [hval]
  refine ⟨rfl, ?_, ?_, ?_⟩
  · dsimp only
    split_ifs <;>
      simp only [Rockcraft.dayFloor, Rockcraft.secPerDay, Rockcraft.quarterSec] <;> omega
  · intro hp
    simp only [hp, if_true, Rockcraft.dayFloor, Rockcraft.secPerDay]
    omega
  · intro hp
    simp only [hp, Bool.false_eq_true, if_false, Rockcraft.dayFloor,
      Rockcraft.secPerDay, Rockcraft.quarterSec]
    omega

/-- Witness for the amended C5, at a concrete manifest with one
two-component tag and one three-component tag. -/
theorem C5_amended_witness :
    86400 ≤ 3 * 86400 + 50 ∧
    ∀ item ∈ (Rockcraft.oci_factory_manifest ("r" : String) ("c" : String)
        [(("1.0.1" : String), [("1.0" : String), ("1.0.1" : String)])]
        (3 * 86400 + 50)).upload,
      item.source = ("r" : String) ∧ item.commit = ("c" : String) ∧
      ∀ te ∈ item.release,
        te.2.risks = [("stable" : String)] ∧
        te.2.end_of_life % 86400 = 0 ∧
        (Rockcraft.is_tag_with_patch te.1 = true →
          te.2.end_of_life + 86400 = Rockcraft.dayFloor (3 * 86400 + 50)) ∧
        (Rockcraft.is_tag_with_patch te.1 = false →
          (te.2.end_of_life = Rockcraft.dayFloor (3 * 86400 + 50) + 91 * 86400 ∨
            te.2.end_of_life = Rockcraft.dayFloor (3 * 86400 + 50) + 92 * 86400)) :=
  ⟨by decide,
    C5_amended_manifest_eol_policy ("r" : String) ("c" : String)
      [(("1.0.1" : String), [("1.0" : String), ("1.0.1" : String)])]
      (3 * 86400 + 50) (by decide)⟩

/-! ### Claim C9 -/

/-- **C9**: fetching released OCI tags returns an empty list (not an
error) on HTTP 404, raises a `GitHubError` on any other non-200 status,
and on a 200 response whose stripped tag keys are purely numeric dotted
versions (the `_releases.json` tag format — the domain on which the
embedding's version key coincides with `packaging.version.Version`,
which would otherwise raise `InvalidVersion` or apply full PEP 440
ordering) returns the document's tag keys with everything from the
first `-` onward stripped, as a list sorted ascending under
semantic-version comparison (a permutation of the stripped keys that is
pairwise `verLe`-sorted). -/
theorem C9_oci_factory_tags_cases (rock_name : String) (status_code : Nat)
    (keys : List String)
    (hname : containsSeg (("-rock" : String).data) rock_name.data = false) :
    (status_code = 404 →
      Rockcraft.oci_factory_tags rock_name status_code keys = .ok []) ∧
    (status_code ≠ 404 → status_code ≠ 200 →
      ∃ msg, Rockcraft.oci_factory_tags rock_name status_code keys =
        .error (.gitHubError msg)) ∧
    (status_code = 200 →
      (∀ t ∈ keys,
        (numComps (pySplit ('.') ((pySplit ('-') t).headD ("")))).isSome) →
      ∃ l, Rockcraft.oci_factory_tags rock_name status_code keys = .ok l ∧
        l.Perm (keys.map (fun t => (pySplit ('-') t).headD (""))) ∧
        List.Pairwise (fun a b => verLe (pyVerKey a) (pyVerKey b)) l) := by
  unfold Rockcraft.oci_factory_tags
  rw [hname]
  simp only [Bool.false_eq_true, if_false]
  refine ⟨?_, ?_, ?_⟩
  · intro h
    rw [if_pos h]
  · intro h404 h200
    rw [if_neg h404, if_pos h200]
    exact ⟨_, rfl⟩
  · intro h _
    subst h
    rw [if_neg (by decide), if_neg (by decide)]
    exact ⟨_, rfl, pySort_perm _ _, pySort_pairwise _ _⟩

/-- Witness for C9 at the three response shapes (404, 500, and 200
with numeric-version tag keys in the `_releases.json` format). -/
theorem C9_witness :
    containsSeg (("-rock" : String).data) ("x" : String).data = false ∧
    (∀ t ∈ [("2.45.0-22.04" : String), ("2.45-22.04" : String)],
      (numComps (pySplit ('.') ((pySplit ('-') t).headD ("")))).isSome) ∧
    Rockcraft.oci_factory_tags ("x" : String) 404 [] = .ok [] ∧
    (∃ msg, Rockcraft.oci_factory_tags ("x" : String) 500 [] =
      .error (.gitHubError msg)) ∧
    (∃ l, Rockcraft.oci_factory_tags ("x" : String) 200
        [("2.45.0-22.04" : String), ("2.45-22.04" : String)] = .ok l ∧
      l.Perm ([("2.45.0-22.04" : String), ("2.45-22.04" : String)].map
        (fun t => (pySplit ('-') t).headD (""))) ∧
      List.Pairwise (fun a b => verLe (pyVerKey a) (pyVerKey b)) l) :=
  ⟨by decide, by decide,
    (C9_oci_factory_tags_cases ("x" : String) 404 [] (by decide)).1 rfl,
    (C9_oci_factory_tags_cases ("x" : String) 500 [] (by decide)).2.1
      (by decide) (by decide),
    (C9_oci_factory_tags_cases ("x" : String) 200
      [("2.45.0-22.04" : String), ("2.45-22.04" : String)] (by decide)).2.2 rfl
      (by decide)⟩
